import Mathlib

/-
Verification development for the ranking-evaluation driver `src/predict.py`
of the cllm4rec-games repository.

The driver loads a train and a test interaction matrix, batches test users,
obtains a per-item score vector for each user from an external GPT-based
recommendation model, masks out train-positive items
(`item_scores[train_mat > 0] = -float("inf")`, predict.py line 282),
accumulates Recall@K and NDCG@K sums over all batches, divides by the total
number of test users once at the end, prints the five metrics and writes a
two-line CSV record.

Modelling conventions:
- float scores are embedded as rationals; the `-inf` masking sentinel is `⊥`
  of `WithBot ℚ`;
- the metric functions `Recall_at_k` / `NDCG_at_k` live in `util.py`, which
  is not part of the repository snapshot; they are modelled from the spec
  (§4.3), as are the batch builder (`data.py`) and the scoring model
  (`model.py`);
- NDCG uses the real-valued discount `1 / log2 (rank + 1)`, so the NDCG
  definitions are real-valued.
-/

namespace CLLM4Rec

/-! ### Scores and masking (predict.py lines 277-282) -/

/-- A per-item score: either a finite model score (a rational standing in for
the float) or `⊥`, the `-float("inf")` sentinel meaning "excluded from
ranking". -/
abbrev Score := WithBot ℚ

/-- The score vector returned by the external model: finite float scores,
embedded as rationals injected into `Score`. -/
def modelScores (raw : List ℚ) : List Score :=
  raw.map WithBot.some

/-- Embeds predict.py line 282, `item_scores[train_mat > 0] = -float("inf")`:
entrywise over the item dimension, the score is replaced by `⊥` exactly when
the corresponding train-row entry is positive. -/
def maskScores (train : List ℚ) (scores : List Score) : List Score :=
  List.zipWith (fun t s => if 0 < t then (⊥ : Score) else s) train scores

/-- The tensor cell `item_scores` after the in-place indexed assignment of
predict.py line 282: the statement overwrites the tensor returned by the
model, so after the statement that tensor holds exactly these contents. -/
def itemScoresAfterMask (train : List ℚ) (buf : List Score) : List Score :=
  maskScores train buf

/-! ### Ranking (spec §3 RankedList: score descending, ties by ascending
item id; the concrete sorting routine lives in the missing `util.py`, so the
order itself is modelled from the spec). -/

/-- `rankRel s i j` holds when item `i` is ranked no later than item `j`:
strictly higher score first, ties broken by ascending item id. -/
def rankRel (s : List Score) (i j : ℕ) : Prop :=
  s.getD j ⊥ < s.getD i ⊥ ∨ (s.getD i ⊥ = s.getD j ⊥ ∧ i ≤ j)

instance rankRelDecidable (s : List Score) : DecidableRel (rankRel s) :=
  fun i j =>
    inferInstanceAs (Decidable (s.getD j ⊥ < s.getD i ⊥ ∨ (s.getD i ⊥ = s.getD j ⊥ ∧ i ≤ j)))

instance rankRelTotal (s : List Score) : IsTotal ℕ (rankRel s) := by
  constructor
  intro i j
  rcases lt_trichotomy (s.getD i ⊥) (s.getD j ⊥) with h | h | h
  · exact Or.inr (Or.inl h)
  · rcases Nat.le_total i j with hij | hij
    · exact Or.inl (Or.inr ⟨h, hij⟩)
    · exact Or.inr (Or.inr ⟨h.symm, hij⟩)
  · exact Or.inl (Or.inl h)

instance rankRelTrans (s : List Score) : IsTrans ℕ (rankRel s) := by
  constructor
  intro i j k hij hjk
  rcases hij with h1 | ⟨e1, l1⟩
  · rcases hjk with h2 | ⟨e2, l2⟩
    · exact Or.inl (h2.trans h1)
    · exact Or.inl (e2 ▸ h1)
  · rcases hjk with h2 | ⟨e2, l2⟩
    · exact Or.inl (e1 ▸ h2)
    · exact Or.inr ⟨e1.trans e2, l1.trans l2⟩

/-- The RankedList of spec §3: all item ids, sorted by score descending with
ties broken by ascending item id. -/
def rankedList (s : List Score) : List ℕ :=
  List.insertionSort (rankRel s) (List.range s.length)

theorem rankedList_perm (s : List Score) :
    List.Perm (rankedList s) (List.range s.length) :=
  List.perm_insertionSort _ _

theorem rankedList_sorted (s : List Score) :
    List.Sorted (rankRel s) (rankedList s) :=
  List.sorted_insertionSort _ _

theorem rankedList_nodup (s : List Score) : (rankedList s).Nodup :=
  ((rankedList_perm s).nodup_iff).mpr (List.nodup_range _)

theorem mem_rankedList {s : List Score} {i : ℕ} :
    i ∈ rankedList s ↔ i < s.length := by
  rw [(rankedList_perm s).mem_iff, List.mem_range]

theorem rankedList_length (s : List Score) :
    (rankedList s).length = s.length := by
  rw [(rankedList_perm s).length_eq, List.length_range]

/-- Number of items the mask leaves untouched: items whose train-row entry is
not positive. -/
def unmaskedCount (train : List ℚ) : ℕ :=
  ((Finset.range train.length).filter (fun i => ¬ 0 < train.getD i 0)).card

theorem maskScores_length (train : List ℚ) (scores : List Score) :
    (maskScores train scores).length = min train.length scores.length := by
  simp [maskScores]

theorem maskScores_getD (train : List ℚ) (scores : List Score) (i : ℕ)
    (hi : i < train.length) (hi2 : i < scores.length) :
    (maskScores train scores).getD i ⊥ =
      if 0 < train.getD i 0 then (⊥ : Score) else scores.getD i ⊥ := by
  have hlen : i < (maskScores train scores).length := by
    rw [maskScores_length]; exact lt_min hi hi2
  rw [List.getD_eq_getElem _ _ hlen, List.getD_eq_getElem _ _ hi,
    List.getD_eq_getElem _ _ hi2]
  simp [maskScores]

theorem modelScores_length (raw : List ℚ) :
    (modelScores raw).length = raw.length := by
  rw [modelScores, List.length_map]

theorem modelScores_getD (raw : List ℚ) (i : ℕ) (hi : i < raw.length) :
    (modelScores raw).getD i ⊥ = WithBot.some (raw.getD i 0) := by
  have h2 : i < (modelScores raw).length := by rwa [modelScores_length]
  rw [List.getD_eq_getElem _ _ h2, List.getD_eq_getElem _ _ hi]
  simp only [modelScores, List.getElem_map]

theorem maskScores_modelScores_length (train raw : List ℚ)
    (hlen : train.length = raw.length) :
    (maskScores train (modelScores raw)).length = train.length := by
  rw [maskScores_length, modelScores_length, ← hlen, min_self]

/-- C1: after the masking step of predict.py line 282, every train-positive
item's score equals `⊥` (the negative-infinity sentinel), and whenever at
least `K` unmasked items exist, no train-positive item appears in the
top-`K` prefix of the ranked list. -/
theorem masked_train_items_not_in_topK (train raw : List ℚ) (K : ℕ)
    (hlen : train.length = raw.length)
    (hK : K ≤ unmaskedCount train) :
    (∀ i < train.length, 0 < train.getD i 0 →
      (maskScores train (modelScores raw)).getD i ⊥ = ⊥) ∧
    ∀ i ∈ (rankedList (maskScores train (modelScores raw))).take K,
      ¬ 0 < train.getD i 0 := by
  have hraw : (modelScores raw).length = raw.length := modelScores_length raw
  have hslen : (maskScores train (modelScores raw)).length = train.length :=
    maskScores_modelScores_length train raw hlen
  have hmask : ∀ i < train.length, 0 < train.getD i 0 →
      (maskScores train (modelScores raw)).getD i ⊥ = ⊥ := by
    intro i hi hpos
    rw [maskScores_getD train _ i hi (by rw [hraw, ← hlen]; exact hi)]
    exact if_pos hpos
  refine ⟨hmask, ?_⟩
  intro i hiK hpos
  have hiR : i ∈ rankedList (maskScores train (modelScores raw)) :=
    List.mem_of_mem_take hiK
  have hin : i < train.length := by
    have := mem_rankedList.mp hiR
    rwa [hslen] at this
  have hsi : (maskScores train (modelScores raw)).getD i ⊥ = ⊥ :=
    hmask i hin hpos
  set U : Finset ℕ :=
    (Finset.range train.length).filter (fun j => ¬ 0 < train.getD j 0) with hU
  have hKU : K ≤ U.card := hK
  set T : Finset ℕ :=
    ((rankedList (maskScores train (modelScores raw))).take K).toFinset with hT
  have hiT : i ∈ T := List.mem_toFinset.mpr hiK
  have hTcard : T.card ≤ K :=
    le_trans (List.toFinset_card_le _) (List.length_take_le _ _)
  have hiU : i ∉ U := by
    rw [hU, Finset.mem_filter]
    rintro ⟨-, hnot⟩
    exact hnot hpos
  obtain ⟨u, huU, huT⟩ : ∃ u ∈ U, u ∉ T := by
    by_contra hno
    push_neg at hno
    have hsub : U ⊆ T.erase i :=
      Finset.subset_erase.mpr ⟨fun u hu => hno u hu, hiU⟩
    have hle := Finset.card_le_card hsub
    rw [Finset.card_erase_of_mem hiT] at hle
    have h1 : 1 ≤ T.card := Finset.card_pos.mpr ⟨i, hiT⟩
    omega
  rw [hU, Finset.mem_filter, Finset.mem_range] at huU
  obtain ⟨hult, hunpos⟩ := huU
  have huR : u ∈ rankedList (maskScores train (modelScores raw)) := by
    rw [mem_rankedList, hslen]; exact hult
  have hudrop : u ∈ (rankedList (maskScores train (modelScores raw))).drop K := by
    rcases (List.mem_append).mp
        (by rw [List.take_append_drop]; exact huR :
          u ∈ (rankedList (maskScores train (modelScores raw))).take K ++
            (rankedList (maskScores train (modelScores raw))).drop K) with h | h
    · exact absurd (List.mem_toFinset.mpr h) huT
    · exact h
  have hrel : rankRel (maskScores train (modelScores raw)) i u :=
    (rankedList_sorted _).rel_of_mem_take_of_mem_drop hiK hudrop
  have hsu : (maskScores train (modelScores raw)).getD u ⊥ =
      WithBot.some (raw.getD u 0) := by
    rw [maskScores_getD train _ u hult (by rw [hraw, ← hlen]; exact hult),
      if_neg hunpos, modelScores_getD raw u (by rw [← hlen]; exact hult)]
  rcases hrel with hlt | ⟨heq, -⟩
  · rw [hsi, hsu] at hlt
    exact not_lt_bot hlt
  · rw [hsi, hsu] at heq
    exact (WithBot.bot_ne_coe).elim heq

/-! ### RankingMetrics.

Modelled from the spec §4.3: `util.py`, which defines `Recall_at_k` and
`NDCG_at_k`, is imported by predict.py line 41 but is not part of the
repository snapshot, so the per-user metrics and their `agg="sum"` batch
aggregation are taken from the spec's wording. -/

/-- Modelled from the spec: the number of items with positive test-row
value for one user. -/
def posCount (target : List ℚ) : ℕ :=
  ((Finset.range target.length).filter (fun i => 0 < target.getD i 0)).card

/-- Modelled from the spec: the number of items in the top-`k` ranked list
with positive test-row value. -/
def hitCount (target : List ℚ) (s : List Score) (k : ℕ) : ℕ :=
  ((rankedList s).take k).countP (fun i => decide (0 < target.getD i 0))

/-- Modelled from the spec §4.3 (per-user Recall@K of the missing
`util.Recall_at_k`): hits in the top-`k` prefix divided by the number of
positive test items; `0` when the user has no positive test item (rational
division by zero is `0`, matching the spec's "defined as 0" policy). -/
def recallUser (target : List ℚ) (s : List Score) (k : ℕ) : ℚ :=
  (hitCount target s k : ℚ) / (posCount target : ℚ)

/-- The DCG discount at 0-based rank position `j`: `1 / log2 (j + 2)`
(the spec writes `1 / log2 (i + 1)` for 1-based rank `i`). -/
noncomputable def disc (j : ℕ) : ℝ :=
  1 / Real.logb 2 ((j : ℝ) + 2)

/-- Modelled from the spec §4.3: DCG@k, the sum over the first
`min k num_items` rank positions of the discount when the item ranked
there is a true positive. -/
noncomputable def dcg (target : List ℚ) (s : List Score) (k : ℕ) : ℝ :=
  ∑ j ∈ Finset.range (min k (rankedList s).length),
    if 0 < target.getD ((rankedList s).getD j 0) 0 then disc j else 0

/-- Modelled from the spec §4.3: IDCG@k, the DCG of the ideal ordering
placing all true positives first, up to `min k (number of positives)`. -/
noncomputable def idcg (target : List ℚ) (k : ℕ) : ℝ :=
  ∑ j ∈ Finset.range (min k (posCount target)), disc j

/-- Modelled from the spec §4.3 (per-user NDCG@K of the missing
`util.NDCG_at_k`): `DCG/IDCG`, special-cased to `0` when IDCG is `0`. -/
noncomputable def ndcgUser (target : List ℚ) (s : List Score) (k : ℕ) : ℝ :=
  if idcg target k = 0 then 0 else dcg target s k / idcg target k

/-- Modelled from the spec §4.3-4.4: `util.Recall_at_k(target_mat,
item_scores, k, agg="sum")` as called on predict.py lines 287-289: the sum
of per-user Recall@k over the rows of the batch. -/
def Recall_at_k (targetM : List (List ℚ)) (scoreM : List (List Score))
    (k : ℕ) : ℚ :=
  (List.zipWith (fun t s => recallUser t s k) targetM scoreM).sum

/-- Modelled from the spec §4.3-4.4: `util.NDCG_at_k(target_mat,
item_scores, k, agg="sum")` as called on predict.py lines 290-291. -/
noncomputable def NDCG_at_k (targetM : List (List ℚ))
    (scoreM : List (List Score)) (k : ℕ) : ℝ :=
  (List.zipWith (fun t s => ndcgUser t s k) targetM scoreM).sum

/-! ### EvaluationDriver aggregation (predict.py lines 261-299) -/

/-- One evaluation batch as it reaches the metric calls of predict.py lines
287-291: the batch's target-matrix rows and the corresponding masked
score-matrix rows. -/
abbrev EvalBatch := List (List ℚ) × List (List Score)

/-- The total number of evaluated users, `len(test_data_gen)` in
predict.py lines 293-299 (the DataLoader partitions exactly the
generator's users into the batches). -/
def evalUserCount (bs : List EvalBatch) : ℕ :=
  (bs.map (fun b => b.1.length)).sum

/-- predict.py lines 261-299: the five metric accumulators summed over all
batches, each divided by the total user count exactly once at the end. -/
noncomputable def finalResults (bs : List EvalBatch) : ℚ × ℚ × ℚ × ℝ × ℝ :=
  ((bs.map (fun b => Recall_at_k b.1 b.2 1)).sum / (evalUserCount bs : ℚ),
   (bs.map (fun b => Recall_at_k b.1 b.2 5)).sum / (evalUserCount bs : ℚ),
   (bs.map (fun b => Recall_at_k b.1 b.2 10)).sum / (evalUserCount bs : ℚ),
   (bs.map (fun b => NDCG_at_k b.1 b.2 5)).sum / (evalUserCount bs : ℝ),
   (bs.map (fun b => NDCG_at_k b.1 b.2 10)).sum / (evalUserCount bs : ℝ))

theorem Recall_at_k_append (T1 T2 : List (List ℚ))
    (S1 S2 : List (List Score)) (h1 : T1.length = S1.length) (k : ℕ) :
    Recall_at_k (T1 ++ T2) (S1 ++ S2) k =
      Recall_at_k T1 S1 k + Recall_at_k T2 S2 k := by
  unfold Recall_at_k
  rw [List.zipWith_append _ _ _ _ _ h1, List.sum_append]

theorem NDCG_at_k_append (T1 T2 : List (List ℚ))
    (S1 S2 : List (List Score)) (h1 : T1.length = S1.length) (k : ℕ) :
    NDCG_at_k (T1 ++ T2) (S1 ++ S2) k =
      NDCG_at_k T1 S1 k + NDCG_at_k T2 S2 k := by
  unfold NDCG_at_k
  rw [List.zipWith_append _ _ _ _ _ h1, List.sum_append]

/-- C4: the driver sums per-batch metric sums and divides by the total user
count only once at the end, so splitting the user population into two
batches of sizes `m` and `n` yields exactly the metrics of the single
batch of size `m + n`. -/
theorem aggregation_partition_invariant (T1 T2 : List (List ℚ))
    (S1 S2 : List (List Score)) (h1 : T1.length = S1.length) :
    finalResults [(T1, S1), (T2, S2)] = finalResults [(T1 ++ T2, S1 ++ S2)] := by
  unfold finalResults
  have hn : evalUserCount [(T1, S1), (T2, S2)] =
      evalUserCount [(T1 ++ T2, S1 ++ S2)] := by
    simp [evalUserCount]
  rw [hn]
  simp only [List.map_cons, List.map_nil, List.sum_cons, List.sum_nil,
    add_zero, Recall_at_k_append T1 T2 S1 S2 h1, NDCG_at_k_append T1 T2 S1 S2 h1]

/-- C7: for a fixed user, Recall@K is non-decreasing in K. -/
theorem recall_monotone_in_k (target : List ℚ) (s : List Score) (k k2 : ℕ)
    (h : k ≤ k2) : recallUser target s k ≤ recallUser target s k2 := by
  unfold recallUser
  have hh : hitCount target s k ≤ hitCount target s k2 := by
    unfold hitCount
    have ht : (rankedList s).take k = ((rankedList s).take k2).take k := by
      rw [List.take_take, min_eq_left h]
    rw [ht]
    exact List.Sublist.countP_le _ (List.take_sublist _ _)
  have hc : (hitCount target s k : ℚ) ≤ (hitCount target s k2 : ℚ) := by
    exact_mod_cast hh
  rw [div_eq_mul_inv, div_eq_mul_inv]
  apply mul_le_mul_of_nonneg_right hc
  positivity

theorem posCount_eq_zero (target : List ℚ) (hz : ∀ x ∈ target, x ≤ 0) :
    posCount target = 0 := by
  unfold posCount
  rw [Finset.card_eq_zero, Finset.filter_eq_empty_iff]
  intro i hi
  rw [Finset.mem_range] at hi
  rw [List.getD_eq_getElem _ _ hi]
  exact not_lt.mpr (hz _ (List.getElem_mem hi))

/-- C5: a user whose test row has no positive entry has Recall@K = 0 and
NDCG@K = 0 for every K, contributes 0 to the batch metric sums, and still
increments the user-count denominator of the driver's final division. -/
theorem zero_target_user (target : List ℚ) (s : List Score) (k : ℕ)
    (hz : ∀ x ∈ target, x ≤ 0) :
    recallUser target s k = 0 ∧ ndcgUser target s k = 0 ∧
    ∀ (T : List (List ℚ)) (S : List (List Score)), T.length = S.length →
      Recall_at_k (T ++ [target]) (S ++ [s]) k = Recall_at_k T S k ∧
      NDCG_at_k (T ++ [target]) (S ++ [s]) k = NDCG_at_k T S k ∧
      evalUserCount [(T ++ [target], S ++ [s])] = evalUserCount [(T, S)] + 1 := by
  have hp : posCount target = 0 := posCount_eq_zero target hz
  have hr : recallUser target s k = 0 := by
    unfold recallUser
    rw [hp]
    simp
  have hn : ndcgUser target s k = 0 := by
    unfold ndcgUser
    rw [if_pos]
    unfold idcg
    rw [hp]
    simp
  refine ⟨hr, hn, ?_⟩
  intro T S hTS
  refine ⟨?_, ?_, ?_⟩
  · rw [Recall_at_k_append T [target] S [s] hTS k]
    unfold Recall_at_k
    simp [hr]
  · rw [NDCG_at_k_append T [target] S [s] hTS k]
    unfold NDCG_at_k
    simp [hn]
  · simp [evalUserCount]

/-! ### NDCG bounds (claim C6) -/

theorem disc_pos (j : ℕ) : 0 < disc j := by
  unfold disc
  apply div_pos one_pos
  apply Real.logb_pos (by norm_num)
  have h0 : (0:ℝ) ≤ (j:ℝ) := Nat.cast_nonneg j
  linarith

theorem disc_antitone {i j : ℕ} (h : i ≤ j) : disc j ≤ disc i := by
  unfold disc
  apply one_div_le_one_div_of_le
  · apply Real.logb_pos (by norm_num)
    have h0 : (0:ℝ) ≤ (i:ℝ) := Nat.cast_nonneg i
    linarith
  · apply Real.logb_le_logb_of_le (by norm_num)
    · have h0 : (0:ℝ) ≤ (i:ℝ) := Nat.cast_nonneg i
      linarith
    · have hij : (i:ℝ) ≤ (j:ℝ) := Nat.cast_le.mpr h
      linarith

/-- A sum of the antitone positive discounts over any finite set of rank
positions is at most the sum over the initial segment of the same size. -/
theorem sum_disc_le_sum_range (n : ℕ) : ∀ S : Finset ℕ, S.card = n →
    ∑ j ∈ S, disc j ≤ ∑ j ∈ Finset.range n, disc j := by
  induction n with
  | zero =>
    intro S hS
    rw [Finset.card_eq_zero] at hS
    subst hS
    simp
  | succ c ih =>
    intro S hS
    have hne : S.Nonempty := Finset.card_pos.mp (by omega)
    have hMS : S.max' hne ∈ S := S.max'_mem hne
    have hcard : (S.erase (S.max' hne)).card = c := by
      rw [Finset.card_erase_of_mem hMS, hS]
      omega
    have hIH := ih (S.erase (S.max' hne)) hcard
    have hcM : c ≤ S.max' hne := by
      have hsub : S ⊆ Finset.range (S.max' hne + 1) := by
        intro x hx
        rw [Finset.mem_range]
        exact Nat.lt_succ_of_le (S.le_max' x hx)
      have hcle := Finset.card_le_card hsub
      rw [Finset.card_range] at hcle
      omega
    calc ∑ j ∈ S, disc j
        = ∑ j ∈ S.erase (S.max' hne), disc j + disc (S.max' hne) :=
          (Finset.sum_erase_add S _ hMS).symm
      _ ≤ ∑ j ∈ Finset.range c, disc j + disc c :=
          add_le_add hIH (disc_antitone hcM)
      _ = ∑ j ∈ Finset.range (c + 1), disc j := (Finset.sum_range_succ _ _).symm

theorem dcg_nonneg (target : List ℚ) (s : List Score) (k : ℕ) :
    0 ≤ dcg target s k := by
  unfold dcg
  apply Finset.sum_nonneg
  intro j _
  split
  · exact (disc_pos j).le
  · exact le_refl 0

theorem idcg_nonneg (target : List ℚ) (k : ℕ) : 0 ≤ idcg target k := by
  unfold idcg
  exact Finset.sum_nonneg fun j _ => (disc_pos j).le

theorem dcg_le_idcg (target : List ℚ) (s : List Score) (k : ℕ)
    (hlen : target.length = s.length) :
    dcg target s k ≤ idcg target k := by
  unfold dcg idcg
  rw [← Finset.sum_filter
    (fun j => 0 < target.getD ((rankedList s).getD j 0) 0) disc]
  set S : Finset ℕ := (Finset.range (min k (rankedList s).length)).filter
    (fun j => 0 < target.getD ((rankedList s).getD j 0) 0) with hSdef
  have hSk : S.card ≤ k :=
    le_trans (Finset.card_le_card (Finset.filter_subset _ _))
      (by rw [Finset.card_range]; exact min_le_left _ _)
  have hSP : S.card ≤ posCount target := by
    unfold posCount
    apply Finset.card_le_card_of_injOn (fun j => (rankedList s).getD j 0)
    · intro j hj
      rw [hSdef, Finset.mem_filter, Finset.mem_range] at hj
      obtain ⟨hjlt, hjpos⟩ := hj
      have hjR : j < (rankedList s).length := lt_of_lt_of_le hjlt (min_le_right _ _)
      rw [Finset.mem_filter, Finset.mem_range]
      refine ⟨?_, hjpos⟩
      have hmem : (rankedList s).getD j 0 ∈ rankedList s := by
        rw [List.getD_eq_getElem _ _ hjR]
        exact List.getElem_mem hjR
      rw [hlen]
      exact mem_rankedList.mp hmem
    · intro j1 hj1 j2 hj2 heq
      rw [hSdef] at hj1 hj2
      simp only [Finset.coe_filter, Set.mem_setOf_eq, Finset.mem_range] at hj1 hj2
      have h1R : j1 < (rankedList s).length :=
        lt_of_lt_of_le hj1.1 (min_le_right _ _)
      have h2R : j2 < (rankedList s).length :=
        lt_of_lt_of_le hj2.1 (min_le_right _ _)
      have heq2 : (rankedList s).getD j1 0 = (rankedList s).getD j2 0 := heq
      rw [List.getD_eq_getElem _ _ h1R, List.getD_eq_getElem _ _ h2R] at heq2
      exact ((rankedList_nodup s).getElem_inj_iff).mp heq2
  calc ∑ j ∈ S, disc j
      ≤ ∑ j ∈ Finset.range S.card, disc j := sum_disc_le_sum_range S.card S rfl
    _ ≤ ∑ j ∈ Finset.range (min k (posCount target)), disc j := by
        apply Finset.sum_le_sum_of_subset_of_nonneg
        · exact Finset.range_subset.mpr (le_min hSk hSP)
        · intro j _ _
          exact (disc_pos j).le

/-- C6: for every user and every K, NDCG@K lies in `[0, 1]`; when IDCG@K is
`0` (no true positives), NDCG@K is `0` rather than undefined. -/
theorem ndcg_bounds (target : List ℚ) (s : List Score) (k : ℕ)
    (hlen : target.length = s.length) :
    (0 ≤ ndcgUser target s k ∧ ndcgUser target s k ≤ 1) ∧
    (idcg target k = 0 → ndcgUser target s k = 0) := by
  constructor
  · unfold ndcgUser
    split
    · norm_num
    · rename_i h0
      have hpos : 0 < idcg target k :=
        lt_of_le_of_ne (idcg_nonneg target k) (Ne.symm h0)
      constructor
      · exact div_nonneg (dcg_nonneg target s k) hpos.le
      · rw [div_le_one hpos]
        exact dcg_le_idcg target s k hlen
  · intro h
    unfold ndcgUser
    rw [if_pos h]

/-! ### Claim C2: the masking statement mutates the score tensor in place.

`item_scores[train_mat > 0] = -float("inf")` (predict.py line 282) is an
in-place indexed assignment: it overwrites the tensor object returned by
the model rather than allocating a new vector, so after the statement the
model's score tensor holds the contents `itemScoresAfterMask`. -/

/-- C2 counterexample: with train row `[1]` and model score tensor `[1]`,
the tensor contents after the masking statement differ from the
pre-masking contents, so the score vector produced by the model is not
left unchanged. -/
theorem masking_overwrites_model_scores :
    itemScoresAfterMask [(1 : ℚ)] [WithBot.some (1 : ℚ)] ≠
      [WithBot.some (1 : ℚ)] := by
  decide

/-- C2 amended: masking is performed in place on the model's score tensor;
after predict.py line 282 that tensor holds the masked values — each
train-positive entry is `⊥` and every other entry keeps its pre-masking
value. -/
theorem masking_in_place_contents (train : List ℚ) (buf : List Score)
    (hlen : train.length = buf.length) :
    ∀ i < buf.length, (itemScoresAfterMask train buf).getD i ⊥ =
      if 0 < train.getD i 0 then (⊥ : Score) else buf.getD i ⊥ := by
  intro i hi
  unfold itemScoresAfterMask
  exact maskScores_getD train buf i (by rw [hlen]; exact hi) hi

/-! ### Claim C3: scores do not depend on the test row.

predict.py lines 277-279 call
`rec_loss, item_scores = rec_model(input_ids, target_mat, attention_mask)`.
The model (`model.py`) and the batch generator (`data.py`) are imported
but are not part of the repository snapshot; both are modelled from the
spec (§4.1, §6, §9). -/

/-- Modelled from the spec §6 and §9 (`model.py` is missing from the
snapshot): the external scoring boundary exposes
`score(token_sequence, attention_mask) -> score_vector_per_item` — an
arbitrary function of the token sequence and attention mask only — and a
training loss that may additionally read the target matrix. -/
structure ScoringModel where
  score : List ℕ → List ℕ → List ℚ
  loss : List ℕ → List (List ℚ) → List ℕ → ℚ

/-- predict.py lines 277-279 with the spec-modelled model: the call
receives the target matrix, the returned loss may depend on it, and the
returned item scores are produced from the token sequence and attention
mask alone. -/
def rec_model (m : ScoringModel) (input_ids : List ℕ)
    (target_mat : List (List ℚ)) (attention_mask : List ℕ) : ℚ × List ℚ :=
  (m.loss input_ids target_mat attention_mask, m.score input_ids attention_mask)

/-- Modelled from the spec §4.1 (`data.py`'s test generator is missing
from the snapshot): per user, the token sequence and attention mask are
built from the user's train row alone; the train row and the test row are
returned alongside for masking and metric computation. -/
def buildUserBatch (enc : List ℚ → List ℕ × List ℕ)
    (trainM testM : List (List ℚ)) (u : ℕ) :
    (List ℕ × List ℕ) × List ℚ × List ℚ :=
  (enc (trainM.getD u []), trainM.getD u [], testM.getD u [])

/-- The masked per-item score vector that predict.py lines 269-286 hand to
the metric computation for user `u`. -/
def maskedScoresOf (m : ScoringModel) (enc : List ℚ → List ℕ × List ℕ)
    (trainM testM : List (List ℚ)) (u : ℕ) : List Score :=
  maskScores ((buildUserBatch enc trainM testM u).2.1)
    (modelScores
      (rec_model m (buildUserBatch enc trainM testM u).1.1
        [(buildUserBatch enc trainM testM u).2.2]
        (buildUserBatch enc trainM testM u).1.2).2)

/-- C3: for two runs identical except for the test matrix, the masked item
scores handed to metric computation are identical for every user: the test
row reaches only the loss output and the metrics, never the scores. -/
theorem scores_independent_of_test_row (m : ScoringModel)
    (enc : List ℚ → List ℕ × List ℕ) (trainM testA testB : List (List ℚ))
    (u : ℕ) :
    maskedScoresOf m enc trainM testA u = maskedScoresOf m enc trainM testB u :=
  rfl

/-! ### Claim C10: the printed inference time (predict.py lines 268, 292-293) -/

/-- predict.py line 293 prints
`'Inference Time:', (start - end) / len(test_data_gen)` where `start` is
`time.time()` taken before the evaluation loop (line 268) and `end` is
taken after it (line 292); timestamps are embedded as rationals. -/
def inferenceTimePrinted (start finish : ℚ) (numUsers : ℕ) : ℚ :=
  (start - finish) / (numUsers : ℚ)

/-- C10: the printed value equals `(start - end) / numUsers`, so for every
run with positive elapsed time and at least one test user the printed
per-user inference time is negative rather than the positive elapsed time
per user. -/
theorem inference_time_printed_negative (start finish : ℚ) (numUsers : ℕ)
    (helapsed : start < finish) (husers : 0 < numUsers) :
    inferenceTimePrinted start finish numUsers =
      (start - finish) / (numUsers : ℚ) ∧
    inferenceTimePrinted start finish numUsers < 0 := by
  refine ⟨rfl, ?_⟩
  unfold inferenceTimePrinted
  apply div_neg_of_neg_of_pos
  · linarith
  · exact_mod_cast husers

theorem inference_time_printed_negative_witness :
    inferenceTimePrinted 0 1 1 = ((0 : ℚ) - 1) / ((1 : ℕ) : ℚ) ∧
    inferenceTimePrinted 0 1 1 < 0 :=
  inference_time_printed_negative 0 1 1 (by decide) (by decide)

/-! ### Claim C8: a scoring failure aborts the run with no report.

predict.py lines 267-312: the evaluation loop has no exception handler, so
an exception raised while scoring any batch propagates out of `main`; the
results record is computed and written (lines 301-312) only after the loop
has completed over all batches. The external call is embedded as an
`Except`-valued function; a raised exception or malformed output is the
`error` case. -/

/-- The five metric accumulators of predict.py lines 261-265. -/
structure MetricAcc where
  r1 : ℚ
  r5 : ℚ
  r10 : ℚ
  n5 : ℝ
  n10 : ℝ

/-- The evaluation loop of predict.py lines 267-291: batches are processed
in order; a scoring failure propagates immediately, otherwise the batch's
metric sums are accumulated. -/
noncomputable def runLoop {β ε : Type} (score : β → Except ε EvalBatch) :
    List β → MetricAcc → Except ε MetricAcc
  | [], acc => Except.ok acc
  | b :: bs, acc =>
    match score b with
    | Except.error e => Except.error e
    | Except.ok rows =>
      runLoop score bs
        ⟨acc.r1 + Recall_at_k rows.1 rows.2 1,
         acc.r5 + Recall_at_k rows.1 rows.2 5,
         acc.r10 + Recall_at_k rows.1 rows.2 10,
         acc.n5 + NDCG_at_k rows.1 rows.2 5,
         acc.n10 + NDCG_at_k rows.1 rows.2 10⟩

/-- predict.py lines 267-312: run the loop from zeroed accumulators, then
divide by the total user count and produce the reported record; if the
loop fails, no record exists. -/
noncomputable def runEval {β ε : Type} (batches : List β)
    (score : β → Except ε EvalBatch) (totalUsers : ℕ) :
    Except ε (ℚ × ℚ × ℚ × ℝ × ℝ) :=
  (runLoop score batches ⟨0, 0, 0, 0, 0⟩).map fun acc =>
    (acc.r1 / (totalUsers : ℚ), acc.r5 / (totalUsers : ℚ),
     acc.r10 / (totalUsers : ℚ), acc.n5 / (totalUsers : ℝ),
     acc.n10 / (totalUsers : ℝ))

theorem runLoop_ok_iff {β ε : Type} (score : β → Except ε EvalBatch) :
    ∀ (bs : List β) (acc : MetricAcc),
      (∃ acc2, runLoop score bs acc = Except.ok acc2) ↔
        ∀ b ∈ bs, ∃ rows, score b = Except.ok rows := by
  intro bs
  induction bs with
  | nil =>
    intro acc
    constructor
    · intro _ b hb
      exact absurd hb (List.not_mem_nil b)
    · intro _
      exact ⟨acc, rfl⟩
  | cons b bs ih =>
    intro acc
    constructor
    · intro ⟨acc2, hacc2⟩ b2 hb2
      unfold runLoop at hacc2
      rcases hsc : score b with e | rows
      · rw [hsc] at hacc2
        exact absurd hacc2 (by simp)
      · rw [hsc] at hacc2
        rcases List.mem_cons.mp hb2 with rfl | hmem
        · exact ⟨rows, hsc⟩
        · exact (ih _).mp ⟨acc2, hacc2⟩ b2 hmem
    · intro hall
      rcases hsc : score b with e | rows
      · obtain ⟨rows, hrows⟩ := hall b (List.mem_cons_self b bs)
        rw [hsc] at hrows
        exact absurd hrows (by simp)
      · obtain ⟨acc2, hacc2⟩ :=
          (ih ⟨acc.r1 + Recall_at_k rows.1 rows.2 1,
            acc.r5 + Recall_at_k rows.1 rows.2 5,
            acc.r10 + Recall_at_k rows.1 rows.2 10,
            acc.n5 + NDCG_at_k rows.1 rows.2 5,
            acc.n10 + NDCG_at_k rows.1 rows.2 10⟩).mpr
            (fun b2 hb2 => hall b2 (List.mem_cons_of_mem b hb2))
        refine ⟨acc2, ?_⟩
        unfold runLoop
        rw [hsc]
        exact hacc2

/-- C8: the run produces a results record exactly when every batch's
scoring call returns normally; if the external model fails on any batch,
the run terminates with the error and no metrics record exists. -/
theorem report_iff_no_scoring_failure {β ε : Type} (batches : List β)
    (score : β → Except ε EvalBatch) (totalUsers : ℕ) :
    (∃ r, runEval batches score totalUsers = Except.ok r) ↔
      ∀ b ∈ batches, ∃ rows, score b = Except.ok rows := by
  rw [← runLoop_ok_iff score batches ⟨0, 0, 0, 0, 0⟩]
  unfold runEval
  constructor
  · intro ⟨r, hr⟩
    rcases hloop : runLoop score batches ⟨0, 0, 0, 0, 0⟩ with e | acc
    · rw [hloop] at hr
      exact absurd hr (by simp [Except.map])
    · exact ⟨acc, rfl⟩
  · intro ⟨acc, hacc⟩
    rw [hacc]
    exact ⟨_, rfl⟩

/-! ### Claim C9: the final report (predict.py lines 301-312).

`f.write("Recall@1,Recall@5,Recall@10,NDCG@5,NDCG@10\n")` followed by
`f.write(f"{r1:.4f},{r5:.4f},{r10:.4f},{n5:.4f},{n10:.4f}")`, with the same
`:.4f`-formatted values printed to the console on lines 301-306. Python's
fixed-point format `f"{v:.4f}"` is embedded over the rational stand-in of
the float value: scale by `10^4`, round to an integer, print sign, integer
part and exactly four fractional digits. -/

/-- The decimal digit string of a natural number. -/
def natDigitsStr (n : ℕ) : String :=
  if n = 0 then "0"
  else String.mk (((Nat.digits 10 n).reverse).map Nat.digitChar)

/-- Exactly four fractional digits of `r < 10000` (most significant
first). -/
def frac4 (r : ℕ) : String :=
  String.mk [Nat.digitChar (r / 1000 % 10), Nat.digitChar (r / 100 % 10),
    Nat.digitChar (r / 10 % 10), Nat.digitChar (r % 10)]

/-- Embeds `f"{v:.4f}"` over the rational embedding of the float value. -/
def fmt4 (q : ℚ) : String :=
  (if round (q * 10000) < 0 then "-" else "") ++
    natDigitsStr ((round (q * 10000) : ℤ).natAbs / 10000) ++ "." ++
    frac4 ((round (q * 10000) : ℤ).natAbs % 10000)

/-- predict.py line 311: the header line naming the five metrics. -/
def resultsHeader : String := "Recall@1,Recall@5,Recall@10,NDCG@5,NDCG@10"

/-- predict.py lines 310-312: the full contents of the written results
file — the header line, a newline, then the comma-separated 4-decimal
values. -/
def resultsFileContent (r1 r5 r10 n5 n10 : ℚ) : String :=
  resultsHeader ++ "\n" ++
    (fmt4 r1 ++ "," ++ fmt4 r5 ++ "," ++ fmt4 r10 ++ "," ++
      fmt4 n5 ++ "," ++ fmt4 n10)

/-- predict.py lines 301-306: the console lines printed on success. -/
def consoleReport (r1 r5 r10 n5 n10 : ℚ) : List String :=
  ["Final Testing Results:",
   "Recall@1: " ++ fmt4 r1,
   "Recall@5: " ++ fmt4 r5,
   "Recall@10: " ++ fmt4 r10,
   "NDCG@5: " ++ fmt4 n5,
   "NDCG@10: " ++ fmt4 n10]

theorem digitChar_isDigit {d : ℕ} (h : d < 10) :
    (Nat.digitChar d).isDigit = true := by
  interval_cases d <;> decide

theorem digitChar_ne_newline {d : ℕ} (h : d < 10) :
    Nat.digitChar d ≠ '\n' := by
  interval_cases d <;> decide

theorem frac4_length (r : ℕ) : (frac4 r).length = 4 := rfl

theorem frac4_digits (r : ℕ) : ∀ c ∈ (frac4 r).data, c.isDigit = true := by
  intro c hc
  have hd : ∀ x : ℕ, (Nat.digitChar (x % 10)).isDigit = true :=
    fun x => digitChar_isDigit (Nat.mod_lt x (by norm_num))
  have hc2 : c = Nat.digitChar (r / 1000 % 10) ∨
      c = Nat.digitChar (r / 100 % 10) ∨ c = Nat.digitChar (r / 10 % 10) ∨
      c = Nat.digitChar (r % 10) := by
    simpa [frac4] using hc
  rcases hc2 with rfl | rfl | rfl | rfl <;> exact hd _

theorem natDigitsStr_digits (n : ℕ) :
    ∀ c ∈ (natDigitsStr n).data, c.isDigit = true := by
  intro c hc
  unfold natDigitsStr at hc
  split at hc
  · have hz : ("0" : String).data = ['0'] := rfl
    rw [hz, List.mem_singleton] at hc
    subst hc
    decide
  · rcases List.mem_map.mp hc with ⟨d, hd, rfl⟩
    rw [List.mem_reverse] at hd
    exact digitChar_isDigit (Nat.digits_lt_base (by norm_num) hd)

theorem isDigit_ne_newline {c : Char} (h : c.isDigit = true) : c ≠ '\n' := by
  intro hc
  subst hc
  exact absurd h (by decide)

theorem fmt4_shape (q : ℚ) : ∃ s t : String, fmt4 q = s ++ "." ++ t ∧
    t.length = 4 ∧ ∀ c ∈ t.data, c.isDigit = true := by
  refine ⟨(if round (q * 10000) < 0 then "-" else "") ++
    natDigitsStr ((round (q * 10000) : ℤ).natAbs / 10000),
    frac4 ((round (q * 10000) : ℤ).natAbs % 10000), ?_, frac4_length _,
    frac4_digits _⟩
  unfold fmt4
  rw [String.append_assoc, String.append_assoc]

theorem fmt4_no_newline (q : ℚ) : ∀ c ∈ (fmt4 q).data, c ≠ '\n' := by
  intro c hc
  unfold fmt4 at hc
  rw [String.data_append, String.data_append, String.data_append] at hc
  rcases List.mem_append.mp hc with hc1 | hc4
  rcases List.mem_append.mp hc1 with hc2 | hc3
  rcases List.mem_append.mp hc2 with hsign | hnat
  · split at hsign
    · have hm : ("-" : String).data = ['-'] := rfl
      rw [hm, List.mem_singleton] at hsign
      subst hsign
      decide
    · have he : ("" : String).data = [] := rfl
      rw [he] at hsign
      exact absurd hsign (List.not_mem_nil c)
  · exact isDigit_ne_newline (natDigitsStr_digits _ c hnat)
  · have hp : ("." : String).data = ['.'] := rfl
    rw [hp, List.mem_singleton] at hc3
    subst hc3
    decide
  · exact isDigit_ne_newline (frac4_digits _ c hc4)

theorem dataLine_no_newline (r1 r5 r10 n5 n10 : ℚ) :
    ∀ c ∈ (fmt4 r1 ++ "," ++ fmt4 r5 ++ "," ++ fmt4 r10 ++ "," ++
      fmt4 n5 ++ "," ++ fmt4 n10).data, c ≠ '\n' := by
  intro c hc
  simp only [String.data_append, List.mem_append] at hc
  have hcomma : c ∈ (("," : String)).data → c ≠ '\n' := by
    intro hm
    have hq : ("," : String).data = [','] := rfl
    rw [hq, List.mem_singleton] at hm
    subst hm
    decide
  rcases hc with ((((((((h | h) | h) | h) | h) | h) | h) | h) | h)
  · exact fmt4_no_newline r1 c h
  · exact hcomma h
  · exact fmt4_no_newline r5 c h
  · exact hcomma h
  · exact fmt4_no_newline r10 c h
  · exact hcomma h
  · exact fmt4_no_newline n5 c h
  · exact hcomma h
  · exact fmt4_no_newline n10 c h

/-- C9: the results file is a two-line record — the header line naming the
five metrics, one newline, and a data line of the five comma-separated
4-decimal fixed-point values (each value an optionally signed integer
part, a point, and exactly four digits) — and the console report prints
the same formatted values. -/
theorem results_report_format (r1 r5 r10 n5 n10 : ℚ) :
    resultsFileContent r1 r5 r10 n5 n10 =
      resultsHeader ++ "\n" ++
        (fmt4 r1 ++ "," ++ fmt4 r5 ++ "," ++ fmt4 r10 ++ "," ++
          fmt4 n5 ++ "," ++ fmt4 n10) ∧
    resultsHeader = "Recall@1,Recall@5,Recall@10,NDCG@5,NDCG@10" ∧
    (resultsFileContent r1 r5 r10 n5 n10).data.count '\n' = 1 ∧
    (∀ q : ℚ, ∃ s t : String, fmt4 q = s ++ "." ++ t ∧ t.length = 4 ∧
      ∀ c ∈ t.data, c.isDigit = true) ∧
    consoleReport r1 r5 r10 n5 n10 =
      ["Final Testing Results:",
       "Recall@1: " ++ fmt4 r1, "Recall@5: " ++ fmt4 r5,
       "Recall@10: " ++ fmt4 r10, "NDCG@5: " ++ fmt4 n5,
       "NDCG@10: " ++ fmt4 n10] := by
  refine ⟨rfl, rfl, ?_, fmt4_shape, rfl⟩
  unfold resultsFileContent
  rw [String.data_append, String.data_append, List.count_append,
    List.count_append]
  have h1 : resultsHeader.data.count '\n' = 0 := by decide
  have h2 : (("\n" : String)).data.count '\n' = 1 := by decide
  have h3 : (fmt4 r1 ++ "," ++ fmt4 r5 ++ "," ++ fmt4 r10 ++ "," ++
      fmt4 n5 ++ "," ++ fmt4 n10).data.count '\n' = 0 :=
    List.count_eq_zero.mpr fun hmem =>
      dataLine_no_newline r1 r5 r10 n5 n10 '\n' hmem rfl
  rw [h1, h2, h3]

/-! ### Concrete witnesses -/

theorem masked_train_items_not_in_topK_witness :
    (∀ i < ([(1 : ℚ), 0, 0] : List ℚ).length,
      0 < ([(1 : ℚ), 0, 0] : List ℚ).getD i 0 →
      (maskScores [(1 : ℚ), 0, 0] (modelScores [(5 : ℚ), 3, 1])).getD i ⊥ = ⊥) ∧
    ∀ i ∈ (rankedList
        (maskScores [(1 : ℚ), 0, 0] (modelScores [(5 : ℚ), 3, 1]))).take 2,
      ¬ 0 < ([(1 : ℚ), 0, 0] : List ℚ).getD i 0 :=
  masked_train_items_not_in_topK [1, 0, 0] [5, 3, 1] 2 (by decide) (by decide)

theorem masking_in_place_contents_witness :
    ((itemScoresAfterMask [(1 : ℚ), 0]
        [WithBot.some (2 : ℚ), WithBot.some 3]).getD 0 ⊥ =
      if 0 < ([(1 : ℚ), 0] : List ℚ).getD 0 0 then (⊥ : Score)
      else ([WithBot.some (2 : ℚ), WithBot.some 3] : List Score).getD 0 ⊥) ∧
    ((itemScoresAfterMask [(1 : ℚ), 0]
        [WithBot.some (2 : ℚ), WithBot.some 3]).getD 1 ⊥ =
      if 0 < ([(1 : ℚ), 0] : List ℚ).getD 1 0 then (⊥ : Score)
      else ([WithBot.some (2 : ℚ), WithBot.some 3] : List Score).getD 1 ⊥) :=
  ⟨masking_in_place_contents [1, 0] [WithBot.some 2, WithBot.some 3]
      (by decide) 0 (by decide),
    masking_in_place_contents [1, 0] [WithBot.some 2, WithBot.some 3]
      (by decide) 1 (by decide)⟩

theorem aggregation_partition_invariant_witness :
    finalResults [([[(1 : ℚ)]], [[WithBot.some (1 : ℚ)]]), ([[(0 : ℚ)]], [[WithBot.some (2 : ℚ)]])] =
      finalResults [([[(1 : ℚ)]] ++ [[(0 : ℚ)]],
        [[WithBot.some (1 : ℚ)]] ++ [[WithBot.some (2 : ℚ)]])] :=
  aggregation_partition_invariant [[(1 : ℚ)]] [[(0 : ℚ)]]
    [[WithBot.some (1 : ℚ)]] [[WithBot.some (2 : ℚ)]] (by decide)

theorem zero_target_user_witness :
    recallUser [(0 : ℚ), 0] [WithBot.some (1 : ℚ), WithBot.some 2] 5 = 0 ∧
    ndcgUser [(0 : ℚ), 0] [WithBot.some (1 : ℚ), WithBot.some 2] 5 = 0 ∧
    ∀ (T : List (List ℚ)) (S : List (List Score)), T.length = S.length →
      Recall_at_k (T ++ [[(0 : ℚ), 0]])
          (S ++ [[WithBot.some (1 : ℚ), WithBot.some 2]]) 5 =
        Recall_at_k T S 5 ∧
      NDCG_at_k (T ++ [[(0 : ℚ), 0]])
          (S ++ [[WithBot.some (1 : ℚ), WithBot.some 2]]) 5 =
        NDCG_at_k T S 5 ∧
      evalUserCount [(T ++ [[(0 : ℚ), 0]],
          S ++ [[WithBot.some (1 : ℚ), WithBot.some 2]])] =
        evalUserCount [(T, S)] + 1 :=
  zero_target_user [0, 0] [WithBot.some 1, WithBot.some 2] 5 (by decide)

theorem ndcg_bounds_witness :
    (0 ≤ ndcgUser [(1 : ℚ)] [WithBot.some (1 : ℚ)] 2 ∧
      ndcgUser [(1 : ℚ)] [WithBot.some (1 : ℚ)] 2 ≤ 1) ∧
    (idcg [(1 : ℚ)] 2 = 0 → ndcgUser [(1 : ℚ)] [WithBot.some (1 : ℚ)] 2 = 0) :=
  ndcg_bounds [1] [WithBot.some 1] 2 (by decide)

theorem recall_monotone_in_k_witness :
    recallUser [(1 : ℚ), 0] [WithBot.some (1 : ℚ), WithBot.some 2] 1 ≤
      recallUser [(1 : ℚ), 0] [WithBot.some (1 : ℚ), WithBot.some 2] 2 :=
  recall_monotone_in_k [1, 0] [WithBot.some 1, WithBot.some 2] 1 2 (by decide)

end CLLM4Rec
